import Mathlib

/-!
Verification development for the mcputil repository.

The Python sources under `src/src/mcputil` are shallowly embedded:

* `func.py` (`gen_anno_and_sig`, `JSON_TYPE_MAP`) as pure Lean functions;
* `group.py` (`Group`) as explicit state passing over a `Group` structure,
  with fallible operations returning `Except GroupErr`; Python dicts are
  modelled as association lists with unique keys and insertion-order
  semantics (`alGet`, `alSet`, `alPop`);
* the `Client` and `Tool` classes (their files are not part of the
  sources available here; only `group.py` calls them) are modelled from
  the specification, carrying effect counters (discovery round-trips,
  close attempts, cache invalidations, dispatched invocations) so that
  the fan-out and caching behaviour of `Group` can be stated.

Concurrency claims about the double-checked reader/writer-locked cache
are settled on a small interleaving machine (`CoStep`) in which each
lock-protected critical section of `Group._get_tools` is one atomic step.
-/

namespace Mcputil

/-- A minimal model of the Python values that can appear as JSON-schema
defaults. -/
inductive PyValue where
  | none
  | int (n : Int)
  | str (s : String)
  | bool (b : Bool)
deriving DecidableEq, Repr

/-- Python types used as annotation values by `func.py`, plus `typing.Any`. -/
inductive PyType where
  | int
  | float
  | str
  | bool
  | list
  | dict
  | any
deriving DecidableEq, Repr

/-- Embedding of `JSON_TYPE_MAP` from `func.py`: the mapping from JSON schema
type names to Python types. -/
def JSON_TYPE_MAP : List (String × PyType) :=
  [("integer", PyType.int),
   ("number", PyType.float),
   ("string", PyType.str),
   ("boolean", PyType.bool),
   ("array", PyType.list),
   ("object", PyType.dict)]

/-- Lookup in `JSON_TYPE_MAP` with default, modelling
`JSON_TYPE_MAP.get(info.get("type"), Any)`: a missing `type` key
(`Option.none`) or an unknown type name falls back to `Any`. -/
def jsonTypeGet (t : Option String) : PyType :=
  match t with
  | Option.none => PyType.any
  | Option.some s =>
    match (JSON_TYPE_MAP.find? (fun p => p.1 = s)).map Prod.snd with
    | Option.none => PyType.any
    | Option.some ty => ty

/-- One entry of the parameter schema handed to `gen_anno_and_sig`,
recording the keys the function reads: `type`, `optional`, `default`.
`Option.none` means the key is absent; `default := Option.some v` means the
`default` key is present with value `v` (which may itself be Python `None`,
i.e. `PyValue.none`). -/
structure ParamInfo where
  type : Option String
  optional : Option Bool
  default : Option PyValue
deriving DecidableEq, Repr

/-- The default slot of a generated `inspect.Parameter`: `Parameter.empty`
(the parameter is required) or an actual default value. -/
inductive DefaultVal where
  | empty
  | val (v : PyValue)
deriving DecidableEq, Repr

/-- A generated `inspect.Parameter` (always `POSITIONAL_OR_KEYWORD` in the
source, so the kind is not modelled). -/
structure Param where
  name : String
  default : DefaultVal
  anno : PyType
deriving DecidableEq, Repr

/-- The loop body of `gen_anno_and_sig` for one schema entry:
`py_type = JSON_TYPE_MAP.get(info.get("type"), Any)`;
`default = info.get("default", Parameter.empty)`;
`if info.get("optional", False) and "default" not in info: default = None`. -/
def genParam (param_name : String) (info : ParamInfo) : Param :=
  let py_type := jsonTypeGet info.type
  let default :=
    match info.default with
    | Option.none => DefaultVal.empty
    | Option.some v => DefaultVal.val v
  let default :=
    if info.optional.getD false && info.default.isNone then
      DefaultVal.val PyValue.none
    else default
  { name := param_name, default := default, anno := py_type }

/-- A generated `inspect.Signature`: the parameter list and the return
annotation (`Option.none` models `Signature.empty`). -/
structure Sig where
  parameters : List Param
  returnAnno : Option PyType
deriving DecidableEq, Repr

/-- Embedding of `gen_anno_and_sig` from `func.py`. The `return_schema`
argument is `Option.some rt` when a truthy return schema with `type` key `rt`
is given. Returns the `__annotations__` association list (insertion order)
and the signature. -/
def gen_anno_and_sig (params_schema : List (String × ParamInfo))
    (return_schema : Option (Option String)) :
    List (String × PyType) × Sig :=
  let pas := params_schema.map (fun q => (q.1, genParam q.1 q.2))
  let annos := pas.map (fun q => (q.1, q.2.anno))
  let parameters := pas.map Prod.snd
  match return_schema with
  | Option.some rt =>
    let rty := jsonTypeGet rt
    (annos ++ [("return", rty)], { parameters := parameters, returnAnno := Option.some rty })
  | Option.none =>
    (annos, { parameters := parameters, returnAnno := Option.none })

/-- The default value C10 claims for a parameter, written from the words of
the claim: a present `default` key is kept; otherwise `optional: True` gives
default `None`; any other parameter is required. -/
def claimedDefault (info : ParamInfo) : DefaultVal :=
  match info.default with
  | Option.some v => DefaultVal.val v
  | Option.none =>
    if info.optional.getD false then DefaultVal.val PyValue.none
    else DefaultVal.empty

/-- The six JSON schema type names known to `JSON_TYPE_MAP`. -/
def knownJsonTypes : List String :=
  ["integer", "number", "string", "boolean", "array", "object"]

/-- C10: for every parameter schema entry: a parameter marked
`optional: True` with no `default` key gets default `None`; a parameter
with a `default` key keeps that default; any other parameter is required
(default `Parameter.empty`); a parameter whose `type` is outside the six
known JSON types is annotated `Any`; and the generated signature consists
exactly of the per-entry generated parameters in schema order. -/
theorem c10_gen_sig_defaults :
    (∀ n info, (genParam n info).default = claimedDefault info) ∧
    (∀ n info t, info.type = Option.some t → ¬ t ∈ knownJsonTypes →
      (genParam n info).anno = PyType.any) ∧
    (∀ schema rs, (gen_anno_and_sig schema rs).2.parameters =
      schema.map (fun q => genParam q.1 q.2)) := by
  refine ⟨?_, ?_, ?_⟩
  · intro n info
    cases hd : info.default with
    | none =>
      cases hop : info.optional.getD false <;>
        simp [genParam, claimedDefault, hd, hop]
    | some v =>
      cases hop : info.optional.getD false <;>
        simp [genParam, claimedDefault, hd, hop]
  · intro n info t ht hmem
    have : jsonTypeGet info.type = PyType.any := by
      rw [ht]
      simp only [jsonTypeGet]
      have hfind : JSON_TYPE_MAP.find? (fun p => p.1 = t) = Option.none := by
        rw [List.find?_eq_none]
        intro p hp
        simp only [JSON_TYPE_MAP, List.mem_cons, List.not_mem_nil, or_false] at hp
        rcases hp with h | h | h | h | h | h <;>
          · subst h
            simp only [decide_eq_true_eq]
            intro hc
            exact hmem (by simp [knownJsonTypes, ← hc])
      rw [hfind]
      rfl
    cases hd : info.default with
    | none =>
      cases hop : info.optional.getD false <;>
        simp [genParam, hd, hop, this]
    | some v =>
      cases hop : info.optional.getD false <;>
        simp [genParam, hd, hop, this]
  · intro schema rs
    cases rs <;> simp [gen_anno_and_sig]

/-- A concrete schema entry marked optional with no default key. -/
def optInfo : ParamInfo :=
  { type := Option.some "integer", optional := Option.some true, default := Option.none }

/-- A concrete schema entry with an unknown JSON type name. -/
def oddInfo : ParamInfo :=
  { type := Option.some "wibble", optional := Option.none, default := Option.none }

/-- Witness for C10 at concrete inputs: an optional parameter with no
default gets `None`, and an unknown type is annotated `Any`. -/
theorem c10_gen_sig_defaults_witness :
    (genParam "x" optInfo).default = claimedDefault optInfo ∧
    (genParam "y" oddInfo).anno = PyType.any := by
  constructor
  · exact c10_gen_sig_defaults.1 "x" optInfo
  · exact c10_gen_sig_defaults.2.1 "y" oddInfo "wibble" rfl (by decide)

/-! ## Python dict model

Python dicts keyed by strings are modelled as association lists with unique
keys: lookup takes the first matching entry, assignment updates an existing
key in place (keeping its position, as Python dicts do) or appends a new
key, and `pop` removes the entry. -/

/-- Dict lookup: `m.get(k)`. -/
def alGet {α : Type} (m : List (String × α)) (k : String) : Option α :=
  match m with
  | [] => Option.none
  | p :: rest => if p.1 = k then Option.some p.2 else alGet rest k

/-- Dict assignment `m[k] = v`: update in place if the key exists, else
append. -/
def alSet {α : Type} (m : List (String × α)) (k : String) (v : α) :
    List (String × α) :=
  match m with
  | [] => [(k, v)]
  | p :: rest => if p.1 = k then (k, v) :: rest else p :: alSet rest k v

/-- Dict removal `m.pop(k, None)`: drop the first entry with the key. -/
def alPop {α : Type} (m : List (String × α)) (k : String) :
    List (String × α) :=
  match m with
  | [] => []
  | p :: rest => if p.1 = k then rest else p :: alPop rest k

/-- Key list `list(m.keys())`. -/
def alKeys {α : Type} (m : List (String × α)) : List String :=
  m.map Prod.fst

/-- Update every value in place, keeping keys and order (a Python loop over
`m.values()` that mutates each value). -/
def mapVals {α : Type} (f : String → α → α) (m : List (String × α)) :
    List (String × α) :=
  m.map (fun p => (p.1, f p.1 p.2))

theorem alGet_alSet_self {α : Type} (m : List (String × α)) (k : String) (v : α) :
    alGet (alSet m k v) k = Option.some v := by
  induction m with
  | nil => simp [alGet, alSet]
  | cons p rest ih =>
    by_cases h : p.1 = k <;> simp [alGet, alSet, h, ih]

theorem alGet_alSet_ne {α : Type} (m : List (String × α)) (k k₁ : String) (v : α)
    (h : k₁ ≠ k) : alGet (alSet m k v) k₁ = alGet m k₁ := by
  have hks : k ≠ k₁ := Ne.symm h
  induction m with
  | nil => simp [alGet, alSet, hks]
  | cons p rest ih =>
    by_cases hp : p.1 = k
    · subst hp
      simp [alGet, alSet, hks]
    · by_cases hp1 : p.1 = k₁
      · simp [alGet, alSet, hp, hp1, h]
      · simp [alGet, alSet, hp, hp1, ih]

theorem alGet_not_mem_keys {α : Type} (m : List (String × α)) (k : String)
    (h : ¬ k ∈ alKeys m) : alGet m k = Option.none := by
  induction m with
  | nil => rfl
  | cons p rest ih =>
    simp only [alKeys, List.map_cons, List.mem_cons, not_or] at h
    simp only [alGet, if_neg (fun hc : p.1 = k => h.1 hc.symm)]
    exact ih (by simpa [alKeys] using h.2)

theorem alGet_alPop_self {α : Type} (m : List (String × α)) (k : String)
    (huniq : (alKeys m).Nodup) : alGet (alPop m k) k = Option.none := by
  induction m with
  | nil => rfl
  | cons p rest ih =>
    simp only [alKeys, List.map_cons, List.nodup_cons] at huniq
    by_cases hp : p.1 = k
    · subst hp
      simp only [alPop, if_pos rfl]
      exact alGet_not_mem_keys rest p.1 (by simpa [alKeys] using huniq.1)
    · simp only [alPop, if_neg hp, alGet, if_neg hp]
      exact ih (by simpa [alKeys] using huniq.2)

theorem alGet_alPop_ne {α : Type} (m : List (String × α)) (k k₁ : String)
    (h : k₁ ≠ k) : alGet (alPop m k) k₁ = alGet m k₁ := by
  induction m with
  | nil => rfl
  | cons p rest ih =>
    by_cases hp : p.1 = k
    · subst hp
      simp [alPop, alGet, Ne.symm h]
    · by_cases hp1 : p.1 = k₁
      · simp [alPop, alGet, hp, hp1, h]
      · simp [alPop, alGet, hp, hp1, ih]

theorem alGet_mapVals {α : Type} (f : String → α → α) (m : List (String × α))
    (k : String) : alGet (mapVals f m) k = (alGet m k).map (f k) := by
  induction m with
  | nil => simp [alGet, mapVals]
  | cons p rest ih =>
    by_cases hp : p.1 = k
    · subst hp
      simp [alGet, mapVals]
    · simp only [mapVals, List.map_cons, alGet, if_neg hp] at ih ⊢
      exact ih

theorem alKeys_mapVals {α : Type} (f : String → α → α) (m : List (String × α)) :
    alKeys (mapVals f m) = alKeys m := by
  induction m with
  | nil => rfl
  | cons p rest ih => simp only [mapVals, alKeys, List.map_cons] at ih ⊢; rw [ih]

theorem alKeys_alSet_mem {α : Type} (m : List (String × α)) (k : String) (v : α)
    (h : (alGet m k).isSome) : alKeys (alSet m k v) = alKeys m := by
  induction m with
  | nil => simp [alGet] at h
  | cons p rest ih =>
    by_cases hp : p.1 = k
    · subst hp
      simp [alSet, alKeys]
    · simp only [alGet, if_neg hp] at h
      simp only [alSet, if_neg hp, alKeys, List.map_cons, List.cons.injEq, true_and]
      simpa [alKeys] using ih h

/-! ## The `Tool`, `Client` and `Group` model -/

/-- A discovered tool: name plus an opaque payload standing for the
description and schemas (enough to distinguish catalog entries). -/
structure Tool where
  name : String
  payload : Nat
deriving DecidableEq, Repr

/-- Modelled from the spec: the `Client` class (its file `client.py` is not
among the available sources; only `group.py` calls it). Per spec section 4.1
a client owns one connection; `connect` either succeeds or fails with a
connection error (`connectResult`), `close` may fail but failures during
group teardown are swallowed (`closeResult`), `getTools` performs one
discovery round-trip returning the full current catalog (`catalog`) or
fails when not connected (`getToolsFails`), and `invalidateCache` is a
no-op hook at this layer. The remaining fields are effect counters of the
model: number of discovery round-trips, close attempts, invalidation
requests, and the list of tool invocations dispatched through this client
(spec section 4.2: `Tool.call` forwards to the owning client). -/
structure Client where
  connectResult : Option String
  closeResult : Option String
  getToolsFails : Option String
  catalog : List Tool
  connected : Bool := false
  discoveryCount : Nat := 0
  closeCount : Nat := 0
  invalidateCount : Nat := 0
  dispatched : List String := []
deriving DecidableEq, Repr

/-- Modelled from the spec: `Client.connect()` — fails with the configured
connection error, or marks the client connected. -/
def Client.connectOp (c : Client) : Option String × Client :=
  match c.connectResult with
  | Option.some e => (Option.some e, c)
  | Option.none => (Option.none, { c with connected := true })

/-- Modelled from the spec: `Client.close()` — one close attempt, which may
report a failure; the connection is released either way in the model. -/
def Client.closeOp (c : Client) : Option String × Client :=
  (c.closeResult, { c with connected := false, closeCount := c.closeCount + 1 })

/-- Modelled from the spec: `Client.get_tools()` — one discovery round-trip
returning the full catalog, or a failure. -/
def Client.getToolsOp (c : Client) : Except String (List Tool) × Client :=
  let c₁ := { c with discoveryCount := c.discoveryCount + 1 }
  match c.getToolsFails with
  | Option.some e => (Except.error e, c₁)
  | Option.none => (Except.ok c.catalog, c₁)

/-- Modelled from the spec: `Client.invalidate_cache()` — a no-op hook;
the model records the request. -/
def Client.invalidateOp (c : Client) : Client :=
  { c with invalidateCount := c.invalidateCount + 1 }

/-- Modelled from the spec: dispatching one invocation through a client
(`Tool.call` forwards to the owning client and returns the `Result`). -/
def Client.dispatchOp (c : Client) (tool_name : String) : Client :=
  { c with dispatched := c.dispatched ++ [tool_name] }

/-- The behavioural configuration of a client: the fields that no group
operation ever changes (only the effect counters change). -/
def Client.cfg (c : Client) : Option String × Option String × Option String × List Tool :=
  (c.connectResult, c.closeResult, c.getToolsFails, c.catalog)

/-- Errors raised by `Group` operations: `KeyError` (unknown server),
`ValueError` (unknown tool), or an error propagated from a client
operation (connection / discovery failure). -/
inductive GroupErr where
  | keyError (msg : String)
  | valueError (msg : String)
  | clientError (msg : String)
deriving DecidableEq, Repr

/-- A single quote character (Python repr quoting). -/
def pyQ (s : String) : String :=
  String.singleton (Char.ofNat 39) ++ s ++ String.singleton (Char.ofNat 39)

/-- Python `str` of a list of strings, e.g. a rendering of [a, b] with each
element single-quoted, as an f-string interpolation produces. -/
def pyStrList (xs : List String) : String :=
  "[" ++ String.intercalate ", " (xs.map pyQ) ++ "]"

/-- The `KeyError` message of `Group._get_tools` / `Group.invalidate_cache`
for an unknown server name. -/
def serverNotFoundMsg (server : String) (avail : List String) : String :=
  "Server " ++ pyQ server ++ " not found in group. Available servers: " ++ pyStrList avail

/-- The `ValueError` message of `Group.call_tool` for an unknown tool name. -/
def toolNotFoundMsg (tool server : String) (avail : List String) : String :=
  "Tool " ++ pyQ tool ++ " not found on server " ++ pyQ server ++ ". Available tools: " ++ pyStrList avail

/-- The state of a `Group`: the fixed mapping of server names to clients
(`self._clients`, with the clients' mutable model state inline) and the
tools cache (`self._tools_cache`). -/
structure Group where
  clients : List (String × Client)
  toolsCache : List (String × List (String × Tool))
deriving DecidableEq, Repr

/-- The `Result` returned by a dispatched tool call (spec section 4.3;
only its identity matters here). -/
structure CallResult where
  server : String
  tool : String
  call_id : Option String
deriving DecidableEq, Repr

/-- Embedding of `Group.connect`: fan out `client.connect()` to every
client (`asyncio.gather` without `return_exceptions`, so every task runs
but the first raised exception propagates and the cache-clearing line is
skipped); on success clear the tools cache. -/
def Group.connect (g : Group) : Except GroupErr Unit × Group :=
  let clients₁ := mapVals (fun _ c => c.connectOp.2) g.clients
  match (g.clients.filterMap (fun nc => nc.2.connectResult)).head? with
  | Option.some e =>
    (Except.error (GroupErr.clientError e), { g with clients := clients₁ })
  | Option.none =>
    (Except.ok (), { clients := clients₁, toolsCache := [] })

/-- Embedding of `Group.close`: fan out `client.close()` to every client
with `asyncio.gather(..., return_exceptions=True)`, so individual failures
are collected as values and ignored; then clear the tools cache. -/
def Group.close (g : Group) : Except GroupErr Unit × Group :=
  (Except.ok (), { clients := mapVals (fun _ c => c.closeOp.2) g.clients, toolsCache := [] })

/-- The dict comprehension building a server's cache entry from a discovery
result: for each tool, assign `server_tools[tool.name] = tool`. -/
def buildToolsDict (tools : List Tool) : List (String × Tool) :=
  tools.foldl (fun acc t => alSet acc t.name t) []

/-- Embedding of `Group._get_tools`: unknown server raises `KeyError`;
then the cache is read (reader lock) and a hit is returned as-is; on a
miss the writer lock is taken and, in the sequential embedding, the
double-check re-reads the same cache, so the client is asked for one
discovery round-trip and the result is stored. A discovery failure
propagates and leaves the cache untouched. -/
def Group._get_tools (g : Group) (server_name : String) :
    Except GroupErr (List (String × Tool)) × Group :=
  match alGet g.clients server_name with
  | Option.none =>
    (Except.error (GroupErr.keyError (serverNotFoundMsg server_name (alKeys g.clients))), g)
  | Option.some client =>
    match alGet g.toolsCache server_name with
    | Option.some server_tools => (Except.ok server_tools, g)
    | Option.none =>
      match client.getToolsOp with
      | (Except.error e, client₁) =>
        (Except.error (GroupErr.clientError e),
         { g with clients := alSet g.clients server_name client₁ })
      | (Except.ok tools, client₁) =>
        let server_tools := buildToolsDict tools
        (Except.ok server_tools,
         { clients := alSet g.clients server_name client₁,
           toolsCache := alSet g.toolsCache server_name server_tools })

/-- Embedding of the loop of `Group.get_tools_grouped_by_server` over a
list of server names: each server's tools are fetched via `_get_tools`;
an exception part-way through propagates, keeping the state reached so
far. -/
def Group.getToolsGroupedAux :
    Group → List String → Except GroupErr (List (String × List Tool)) × Group
  | g, [] => (Except.ok [], g)
  | g, s :: rest =>
    match g._get_tools s with
    | (Except.error e, g₁) => (Except.error e, g₁)
    | (Except.ok d, g₁) =>
      match Group.getToolsGroupedAux g₁ rest with
      | (Except.error e, g₂) => (Except.error e, g₂)
      | (Except.ok tail, g₂) => (Except.ok ((s, d.map Prod.snd) :: tail), g₂)

/-- Embedding of `Group.get_tools_grouped_by_server`: iterate over the
known server names. -/
def Group.get_tools_grouped_by_server (g : Group) :
    Except GroupErr (List (String × List Tool)) × Group :=
  Group.getToolsGroupedAux g (alKeys g.clients)

/-- Embedding of `Group.get_tools`: with a server name, the values of that
server's catalog; with none, all servers' tools flattened. -/
def Group.get_tools (g : Group) (server_name : Option String) :
    Except GroupErr (List Tool) × Group :=
  match server_name with
  | Option.some s =>
    match g._get_tools s with
    | (Except.error e, g₁) => (Except.error e, g₁)
    | (Except.ok d, g₁) => (Except.ok (d.map Prod.snd), g₁)
  | Option.none =>
    match g.get_tools_grouped_by_server with
    | (Except.error e, g₁) => (Except.error e, g₁)
    | (Except.ok grouped, g₁) => (Except.ok (grouped.map Prod.snd).flatten, g₁)

/-- Embedding of `Group.call_tool`: warm the server's catalog via
`_get_tools`, raise `ValueError` when the tool is absent (listing the tool
names known on that server), otherwise dispatch the invocation through the
tool bound to that server's client and return its `Result`. -/
def Group.call_tool (g : Group) (server_name tool_name : String)
    (call_id : Option String) : Except GroupErr CallResult × Group :=
  match g._get_tools server_name with
  | (Except.error e, g₁) => (Except.error e, g₁)
  | (Except.ok tools_dict, g₁) =>
    match alGet tools_dict tool_name with
    | Option.none =>
      (Except.error (GroupErr.valueError
        (toolNotFoundMsg tool_name server_name (alKeys tools_dict))), g₁)
    | Option.some _tool =>
      let clients₂ := mapVals (fun n c => if n = server_name then c.dispatchOp tool_name else c) g₁.clients
      (Except.ok { server := server_name, tool := tool_name, call_id := call_id },
       { g₁ with clients := clients₂ })

/-- Embedding of `Group.invalidate_cache`: with no server name, clear the
whole cache and ask every client to invalidate; with a server name, raise
`KeyError` if unknown, else pop only that entry and ask only that client. -/
def Group.invalidate_cache (g : Group) (server_name : Option String) :
    Except GroupErr Unit × Group :=
  match server_name with
  | Option.none =>
    (Except.ok (),
     { clients := mapVals (fun _ c => c.invalidateOp) g.clients, toolsCache := [] })
  | Option.some s =>
    match alGet g.clients s with
    | Option.none =>
      (Except.error (GroupErr.keyError (serverNotFoundMsg s (alKeys g.clients))), g)
    | Option.some _ =>
      (Except.ok (),
       { clients := mapVals (fun n c => if n = s then c.invalidateOp else c) g.clients,
         toolsCache := alPop g.toolsCache s })

/-! ## Claims about `Group` -/

/-- The connection failures of the members of a group, one per failing
member, in fan-out order. -/
def memberConnectFailures (g : Group) : List String :=
  g.clients.filterMap (fun nc => nc.2.connectResult)

/-- The individual member failures carried by the error surfaced by a
fan-out operation (the model's errors carry exactly one). -/
def surfacedFailures : Except GroupErr Unit → List String
  | Except.error (GroupErr.clientError e) => [e]
  | _ => []

/-- A client whose connect fails with the given error. -/
def cxClient (e : String) : Client :=
  { connectResult := Option.some e, closeResult := Option.none,
    getToolsFails := Option.none, catalog := [] }

/-- A two-member group in which both connects fail. -/
def cxGroup : Group :=
  { clients := [("a", cxClient "boom-a"), ("b", cxClient "boom-b")],
    toolsCache := [] }

/-- C1 counterexample: in a group whose two members fail to connect with
distinct errors, `Group.connect` surfaces an error carrying only the first
member's failure — not one failure per failing member — because the fan-out
uses `asyncio.gather` without `return_exceptions`. -/
theorem c1_counterexample :
    memberConnectFailures cxGroup = ["boom-a", "boom-b"] ∧
    surfacedFailures (cxGroup.connect).1 = ["boom-a"] ∧
    ¬ surfacedFailures (cxGroup.connect).1 = memberConnectFailures cxGroup := by
  refine ⟨rfl, rfl, ?_⟩
  intro h
  rw [show surfacedFailures (cxGroup.connect).1 = ["boom-a"] from rfl] at h
  simp [memberConnectFailures, cxGroup, cxClient] at h

/-- C1 (amended): when at least one member's connect fails,
`Group.connect` surfaces exactly the first failing member's failure (in
fan-out order); the surfaced error carries one failure, not one per
failing member. -/
theorem c1_connect_first_failure (g : Group) (e : String)
    (h : (memberConnectFailures g).head? = Option.some e) :
    (g.connect).1 = Except.error (GroupErr.clientError e) ∧
    surfacedFailures (g.connect).1 = [e] := by
  simp only [memberConnectFailures] at h
  simp [Group.connect, h, surfacedFailures]

/-- Witness for C1 at the two-member group: the first failure is surfaced. -/
theorem c1_connect_first_failure_witness :
    (memberConnectFailures cxGroup).head? = Option.some "boom-a" ∧
    ((cxGroup.connect).1 = Except.error (GroupErr.clientError "boom-a") ∧
      surfacedFailures (cxGroup.connect).1 = ["boom-a"]) :=
  ⟨rfl, c1_connect_first_failure cxGroup "boom-a" rfl⟩

/-- C4: for a server name not in the group, `get_tools`, `call_tool` and
`invalidate_cache` all fail with the `KeyError` naming the requested server
and listing the known server names, and leave the whole group state (in
particular the tools cache) unchanged. -/
theorem c4_unknown_server_errors (g : Group) (s t : String) (cid : Option String)
    (h : alGet g.clients s = Option.none) :
    g.get_tools (Option.some s) =
      (Except.error (GroupErr.keyError (serverNotFoundMsg s (alKeys g.clients))), g) ∧
    g.call_tool s t cid =
      (Except.error (GroupErr.keyError (serverNotFoundMsg s (alKeys g.clients))), g) ∧
    g.invalidate_cache (Option.some s) =
      (Except.error (GroupErr.keyError (serverNotFoundMsg s (alKeys g.clients))), g) := by
  refine ⟨?_, ?_, ?_⟩
  · simp [Group.get_tools, Group._get_tools, h]
  · simp [Group.call_tool, Group._get_tools, h]
  · simp [Group.invalidate_cache, h]

/-- A group with one connectable server `a` exposing one tool. -/
def okGroup : Group :=
  { clients := [("a",
      { connectResult := Option.none, closeResult := Option.none,
        getToolsFails := Option.none, catalog := [{ name := "add", payload := 0 }] })],
    toolsCache := [] }

/-- Witness for C4 at a concrete group and an unknown server name. -/
theorem c4_unknown_server_errors_witness :
    alGet okGroup.clients "zz" = Option.none ∧
    (okGroup.get_tools (Option.some "zz") =
      (Except.error (GroupErr.keyError (serverNotFoundMsg "zz" (alKeys okGroup.clients))), okGroup) ∧
    okGroup.call_tool "zz" "add" Option.none =
      (Except.error (GroupErr.keyError (serverNotFoundMsg "zz" (alKeys okGroup.clients))), okGroup) ∧
    okGroup.invalidate_cache (Option.some "zz") =
      (Except.error (GroupErr.keyError (serverNotFoundMsg "zz" (alKeys okGroup.clients))), okGroup)) :=
  ⟨rfl, c4_unknown_server_errors okGroup "zz" "add" Option.none rfl⟩

/-- Any state reached by `_get_tools` keeps every client's dispatch log:
discovery may bump the discovery counter and populate the cache, but never
dispatches an invocation. -/
theorem getTools_preserves_dispatched (g : Group) (s : String) :
    ∀ n c₁, alGet (g._get_tools s).2.clients n = Option.some c₁ →
      ∃ c, alGet g.clients n = Option.some c ∧ c₁.dispatched = c.dispatched := by
  intro n c₁ h
  cases hc : alGet g.clients s with
  | none =>
    simp only [Group._get_tools, hc] at h
    exact ⟨c₁, h, rfl⟩
  | some client =>
    cases hd : alGet g.toolsCache s with
    | some d =>
      simp only [Group._get_tools, hc, hd] at h
      exact ⟨c₁, h, rfl⟩
    | none =>
      cases hg : client.getToolsOp with
      | mk r client₁ =>
        have hdisp : client₁.dispatched = client.dispatched := by
          unfold Client.getToolsOp at hg
          cases hf : client.getToolsFails <;> rw [hf] at hg <;>
            · cases hg
              rfl
        cases r with
        | error e =>
          simp only [Group._get_tools, hc, hd, hg] at h
          by_cases hn : n = s
          · subst hn
            rw [alGet_alSet_self] at h
            cases h
            exact ⟨client, hc, hdisp⟩
          · rw [alGet_alSet_ne _ _ _ _ hn] at h
            exact ⟨c₁, h, rfl⟩
        | ok tools =>
          simp only [Group._get_tools, hc, hd, hg] at h
          by_cases hn : n = s
          · subst hn
            rw [alGet_alSet_self] at h
            cases h
            exact ⟨client, hc, hdisp⟩
          · rw [alGet_alSet_ne _ _ _ _ hn] at h
            exact ⟨c₁, h, rfl⟩

/-- C5: when the warmed catalog of a known server has no entry for the
requested tool, `call_tool` fails with the `ValueError` naming the tool and
listing the tool names known on that server at the time of the check, and
no invocation is dispatched through any client. -/
theorem c5_unknown_tool_no_dispatch (g g₁ : Group) (s t : String)
    (cid : Option String) (d : List (String × Tool))
    (h1 : g._get_tools s = (Except.ok d, g₁))
    (h2 : alGet d t = Option.none) :
    g.call_tool s t cid =
      (Except.error (GroupErr.valueError (toolNotFoundMsg t s (alKeys d))), g₁) ∧
    (∀ n c₁, alGet g₁.clients n = Option.some c₁ →
      ∃ c, alGet g.clients n = Option.some c ∧ c₁.dispatched = c.dispatched) := by
  constructor
  · simp [Group.call_tool, h1, h2]
  · intro n c₁ h
    have := getTools_preserves_dispatched g s n c₁ (by rw [h1]; exact h)
    exact this

/-- Witness for C5: on the one-server group, calling a missing tool after a
cold `_get_tools` fails with the tool-not-found error and dispatches
nothing. -/
theorem c5_unknown_tool_no_dispatch_witness :
    okGroup._get_tools "a" = ((okGroup._get_tools "a").1, (okGroup._get_tools "a").2) ∧
    okGroup.call_tool "a" "zap" Option.none =
      (Except.error (GroupErr.valueError (toolNotFoundMsg "zap" "a" ["add"])), (okGroup._get_tools "a").2) :=
  ⟨rfl, (c5_unknown_tool_no_dispatch okGroup (okGroup._get_tools "a").2 "a" "zap"
    Option.none [("add", { name := "add", payload := 0 })] rfl rfl).1⟩

/-- C8: whenever `Group.connect` returns successfully the tools cache is
empty, whatever it held before. -/
theorem c8_connect_clears_cache (g : Group)
    (h : (g.connect).1 = Except.ok ()) : (g.connect).2.toolsCache = [] := by
  cases hh : (g.clients.filterMap (fun nc => nc.2.connectResult)).head? with
  | none => simp [Group.connect, hh]
  | some e => simp [Group.connect, hh] at h

/-- Witness for C8: a group with one connectable server and a warm cache
entry; connect succeeds and the cache is cleared. -/
theorem c8_connect_clears_cache_witness :
    ((okGroup.connect).1 = Except.ok ()) ∧ (okGroup.connect).2.toolsCache = [] :=
  ⟨rfl, c8_connect_clears_cache okGroup rfl⟩

/-- C9: `Group.close` never raises (individual close failures are swallowed
by the `return_exceptions=True` gather), attempts one close on every owned
client, leaves the tools cache empty, and a second close in a row does not
raise either. -/
theorem c9_close_best_effort (g : Group) (s : String) (c : Client)
    (h : alGet g.clients s = Option.some c) :
    (g.close).1 = Except.ok () ∧
    (g.close).2.toolsCache = [] ∧
    alGet (g.close).2.clients s =
      Option.some { c with connected := false, closeCount := c.closeCount + 1 } ∧
    ((g.close).2.close).1 = Except.ok () := by
  refine ⟨rfl, rfl, ?_, rfl⟩
  simp [Group.close, alGet_mapVals, h, Client.closeOp]

/-- A client whose close fails. -/
def badCloseClient : Client :=
  { connectResult := Option.none, closeResult := Option.some "close-boom",
    getToolsFails := Option.none, catalog := [] }

/-- A group with one member whose close fails and a warm cache entry. -/
def badCloseGroup : Group :=
  { clients := [("a", badCloseClient)], toolsCache := [("a", [])] }

/-- Witness for C9 on a group whose only member fails to close: close still
returns successfully, attempts the close, clears the cache, and is
repeatable. -/
theorem c9_close_best_effort_witness :
    alGet badCloseGroup.clients "a" = Option.some badCloseClient ∧
    ((badCloseGroup.close).1 = Except.ok () ∧
    (badCloseGroup.close).2.toolsCache = [] ∧
    alGet (badCloseGroup.close).2.clients "a" =
      Option.some { badCloseClient with
        connected := false,
        closeCount := badCloseClient.closeCount + 1 } ∧
    ((badCloseGroup.close).2.close).1 = Except.ok ()) :=
  ⟨rfl, c9_close_best_effort badCloseGroup "a" badCloseClient rfl⟩

/-- C7: `invalidate_cache` with a known server name succeeds, removes only
that server's cache entry, leaves every other entry unchanged, sends the
invalidation request to that server's client only, and leaves every other
client untouched; with no server name it succeeds, clears every entry and
sends the invalidation request to every client. -/
theorem c7_invalidate_frame (g : Group) (s : String) (c : Client)
    (h : alGet g.clients s = Option.some c)
    (hnd : (alKeys g.toolsCache).Nodup) :
    (g.invalidate_cache (Option.some s)).1 = Except.ok () ∧
    alGet (g.invalidate_cache (Option.some s)).2.toolsCache s = Option.none ∧
    (∀ t, t ≠ s → alGet (g.invalidate_cache (Option.some s)).2.toolsCache t =
      alGet g.toolsCache t) ∧
    alGet (g.invalidate_cache (Option.some s)).2.clients s = Option.some c.invalidateOp ∧
    (∀ t, t ≠ s → alGet (g.invalidate_cache (Option.some s)).2.clients t =
      alGet g.clients t) ∧
    (g.invalidate_cache Option.none).1 = Except.ok () ∧
    (g.invalidate_cache Option.none).2.toolsCache = [] ∧
    (∀ n c₁, alGet g.clients n = Option.some c₁ →
      alGet (g.invalidate_cache Option.none).2.clients n = Option.some c₁.invalidateOp) := by
  refine ⟨?_, ?_, ?_, ?_, ?_, ?_, ?_, ?_⟩
  · simp [Group.invalidate_cache, h]
  · simp only [Group.invalidate_cache, h]
    exact alGet_alPop_self _ _ hnd
  · intro t ht
    simp only [Group.invalidate_cache, h]
    exact alGet_alPop_ne _ _ _ ht
  · simp only [Group.invalidate_cache, h]
    rw [alGet_mapVals, h]
    simp
  · intro t ht
    simp only [Group.invalidate_cache, h]
    rw [alGet_mapVals]
    cases hg : alGet g.clients t with
    | none => rfl
    | some c₁ => simp [ht]
  · rfl
  · rfl
  · intro n c₁ hn
    simp only [Group.invalidate_cache]
    rw [alGet_mapVals, hn]
    rfl

/-- A two-server group with warm cache entries for both servers. -/
def twoGroup : Group :=
  { clients := [("a", cxClient "ea"), ("b", cxClient "eb")],
    toolsCache := [("a", [("t1", { name := "t1", payload := 1 })]),
                   ("b", [("t2", { name := "t2", payload := 2 })])] }

/-- Witness for C7 at a concrete two-server group: invalidating `a` keeps
the entry for `b` and only notifies the client of `a`. -/
theorem c7_invalidate_frame_witness :
    alGet twoGroup.clients "a" = Option.some (cxClient "ea") ∧
    (alKeys twoGroup.toolsCache).Nodup ∧
    (alGet (twoGroup.invalidate_cache (Option.some "a")).2.toolsCache "a" = Option.none ∧
     alGet (twoGroup.invalidate_cache (Option.some "a")).2.toolsCache "b" =
       alGet twoGroup.toolsCache "b" ∧
     alGet (twoGroup.invalidate_cache (Option.some "a")).2.clients "b" =
       alGet twoGroup.clients "b") := by
  have hc : alGet twoGroup.clients "a" = Option.some (cxClient "ea") := rfl
  have hnd : (alKeys twoGroup.toolsCache).Nodup := by decide
  have main := c7_invalidate_frame twoGroup "a" (cxClient "ea") hc hnd
  exact ⟨hc, hnd, main.2.1, main.2.2.1 "b" (by decide), main.2.2.2.2.1 "b" (by decide)⟩

/-! ## Interleaving machine for the double-checked cache population

`Group._get_tools` touches the cache in exactly two critical sections:
the reader-locked lookup, and the writer-locked block that re-checks the
cache and, only when the entry is still absent, performs the discovery
round-trip and stores the catalog. The writer lock is held across the
whole block (including the awaited discovery call), so each section is
atomic with respect to every other cache access. The machine below runs N
callers of `_get_tools` for one fixed server against a shared cache cell;
each step is one critical section of one caller. -/

/-- The control point of one caller of `_get_tools` for the shared server:
before its reader-locked cache read, after a read miss (waiting on the
writer lock), or finished with the catalog it returned. -/
inductive CoPhase where
  | start
  | missed
  | done (result : List (String × Tool))
deriving DecidableEq, Repr

/-- Shared cache cell for the one server, discovery round-trip counter,
and the control points of the callers. -/
structure CoState where
  cache : Option (List (String × Tool))
  fetches : Nat
  coros : List CoPhase
deriving DecidableEq, Repr

/-- One atomic critical section of one caller, for a server whose client
returns the catalog `cat` from a discovery round-trip: a reader-locked
read that hits (`readHit`) or misses (`readMiss`), and the writer-locked
block whose double-check hits (`writeHit`, no discovery) or still misses,
in which case one discovery round-trip runs and the full catalog is stored
(`writeFetch`). -/
inductive CoStep (cat : List Tool) : CoState → CoState → Prop where
  | readHit (d : List (String × Tool)) (f : Nat) (coros : List CoPhase) (i : Nat)
      (hi : coros.get? i = some CoPhase.start) :
      CoStep cat ⟨some d, f, coros⟩ ⟨some d, f, coros.set i (CoPhase.done d)⟩
  | readMiss (f : Nat) (coros : List CoPhase) (i : Nat)
      (hi : coros.get? i = some CoPhase.start) :
      CoStep cat ⟨none, f, coros⟩ ⟨none, f, coros.set i CoPhase.missed⟩
  | writeHit (d : List (String × Tool)) (f : Nat) (coros : List CoPhase) (i : Nat)
      (hi : coros.get? i = some CoPhase.missed) :
      CoStep cat ⟨some d, f, coros⟩ ⟨some d, f, coros.set i (CoPhase.done d)⟩
  | writeFetch (f : Nat) (coros : List CoPhase) (i : Nat)
      (hi : coros.get? i = some CoPhase.missed) :
      CoStep cat ⟨none, f, coros⟩
        ⟨some (buildToolsDict cat), f + 1, coros.set i (CoPhase.done (buildToolsDict cat))⟩

/-- Reachability under interleavings of `CoStep`. -/
inductive CoReach (cat : List Tool) : CoState → CoState → Prop where
  | refl (s : CoState) : CoReach cat s s
  | tail {a b c : CoState} : CoReach cat a b → CoStep cat b c → CoReach cat a c

/-- The initial state of N concurrent `_get_tools` callers against a cold
cache (no entry for the server, no discovery round-trip performed yet). -/
def coldStart (n : Nat) : CoState :=
  { cache := Option.none, fetches := 0, coros := List.replicate n CoPhase.start }

/-- The invariant of the machine from a cold start: while the cache is
empty no discovery has happened and nobody has finished; once the cache is
populated it holds exactly the catalog of the one discovery round-trip
that populated it; every finished caller returned that same catalog. -/
def CoInv (cat : List Tool) (s : CoState) : Prop :=
  (s.cache = Option.none → s.fetches = 0 ∧ ∀ p ∈ s.coros, ∀ d, p ≠ CoPhase.done d) ∧
  (∀ d, s.cache = Option.some d → d = buildToolsDict cat ∧ s.fetches = 1) ∧
  (∀ p ∈ s.coros, ∀ d, p = CoPhase.done d → d = buildToolsDict cat)

theorem coInv_coldStart (cat : List Tool) (n : Nat) : CoInv cat (coldStart n) := by
  unfold CoInv coldStart
  refine ⟨?_, ?_, ?_⟩
  · intro _
    refine ⟨rfl, ?_⟩
    intro p hp d
    have hps := List.eq_of_mem_replicate hp
    subst hps
    intro hc
    cases hc
  · intro d hd
    cases hd
  · intro p hp d hpd
    have hps := List.eq_of_mem_replicate hp
    subst hps
    cases hpd

theorem coInv_step (cat : List Tool) (a b : CoState) (hstep : CoStep cat a b)
    (hinv : CoInv cat a) : CoInv cat b := by
  obtain ⟨hcold, hwarm, hdone⟩ := hinv
  cases hstep with
  | readHit d f coros i hi =>
    unfold CoInv
    refine ⟨?_, ?_, ?_⟩
    · intro hc
      cases hc
    · intro d₁ hd₁
      cases hd₁
      exact hwarm d rfl
    · intro p hp d₁ hpd
      rcases List.mem_or_eq_of_mem_set hp with hmem | heq
      · exact hdone p hmem d₁ hpd
      · subst heq
        cases hpd
        exact (hwarm d rfl).1
  | readMiss f coros i hi =>
    unfold CoInv
    refine ⟨?_, ?_, ?_⟩
    · intro _
      refine ⟨(hcold rfl).1, ?_⟩
      intro p hp d
      rcases List.mem_or_eq_of_mem_set hp with hmem | heq
      · exact (hcold rfl).2 p hmem d
      · subst heq
        intro hc
        cases hc
    · intro d hd
      cases hd
    · intro p hp d hpd
      rcases List.mem_or_eq_of_mem_set hp with hmem | heq
      · exact hdone p hmem d hpd
      · subst heq
        cases hpd
  | writeHit d f coros i hi =>
    unfold CoInv
    refine ⟨?_, ?_, ?_⟩
    · intro hc
      cases hc
    · intro d₁ hd₁
      cases hd₁
      exact hwarm d rfl
    · intro p hp d₁ hpd
      rcases List.mem_or_eq_of_mem_set hp with hmem | heq
      · exact hdone p hmem d₁ hpd
      · subst heq
        cases hpd
        exact (hwarm d rfl).1
  | writeFetch f coros i hi =>
    have hf : f = 0 := (hcold rfl).1
    subst hf
    unfold CoInv
    refine ⟨?_, ?_, ?_⟩
    · intro hc
      cases hc
    · intro d₁ hd₁
      cases hd₁
      exact ⟨rfl, rfl⟩
    · intro p hp d₁ hpd
      rcases List.mem_or_eq_of_mem_set hp with hmem | heq
      · exact hdone p hmem d₁ hpd
      · subst heq
        cases hpd
        rfl

theorem coInv_reach (cat : List Tool) (a b : CoState) (hr : CoReach cat a b)
    (hinv : CoInv cat a) : CoInv cat b := by
  induction hr with
  | refl => exact hinv
  | tail hr hstep ih => exact coInv_step cat _ _ hstep ih

/-- C2: a warm cache entry is served as-is with no discovery round-trip and
no state change at all in `Group._get_tools`; and in the interleaving
machine of the writer-locked double-check, any number of concurrent
callers starting cold cause at most one discovery round-trip before the
next invalidation. -/
theorem c2_warm_hit_single_fetch (g : Group) (s : String) (c : Client)
    (d : List (String × Tool)) (hc : alGet g.clients s = Option.some c)
    (hd : alGet g.toolsCache s = Option.some d)
    (cat : List Tool) (n : Nat) (st : CoState)
    (hr : CoReach cat (coldStart n) st) :
    g._get_tools s = (Except.ok d, g) ∧ st.fetches ≤ 1 := by
  constructor
  · simp [Group._get_tools, hc, hd]
  · have hinv := coInv_reach cat _ _ hr (coInv_coldStart cat n)
    cases hcache : st.cache with
    | none =>
      rw [(hinv.1 hcache).1]
      exact Nat.zero_le 1
    | some d₁ =>
      rw [(hinv.2.1 d₁ hcache).2]

/-- C3: starting from a cold cache, any interleaving of N ≥ 1 concurrent
`_get_tools` callers for the same server that runs every caller to
completion performs exactly one discovery round-trip, and every caller
returns the identical catalog (the one built from that round-trip). -/
theorem c3_concurrent_cold_coalesce (cat : List Tool) (n : Nat) (st : CoState)
    (hn : 0 < n) (hr : CoReach cat (coldStart n) st)
    (hall : ∀ p ∈ st.coros, ∃ d, p = CoPhase.done d) :
    st.fetches = 1 ∧
    ∀ p ∈ st.coros, ∀ d, p = CoPhase.done d → d = buildToolsDict cat := by
  have hinv := coInv_reach cat _ _ hr (coInv_coldStart cat n)
  have hlen : st.coros.length = n := by
    have hpres : ∀ a b, CoReach cat a b → b.coros.length = a.coros.length := by
      intro a b hab
      induction hab with
      | refl => rfl
      | tail hr hstep ih =>
        cases hstep with
        | readHit d f coros i hi => simpa using ih
        | readMiss f coros i hi => simpa using ih
        | writeHit d f coros i hi => simpa using ih
        | writeFetch f coros i hi => simpa using ih
    simpa [coldStart] using hpres _ _ hr
  have hne : st.coros ≠ [] := by
    intro hc
    rw [hc] at hlen
    exact absurd hlen.symm (Nat.ne_of_gt hn)
  obtain ⟨p, hp⟩ := List.exists_mem_of_ne_nil st.coros hne
  obtain ⟨d, hd⟩ := hall p hp
  cases hcache : st.cache with
  | none =>
    exact absurd hd ((hinv.1 hcache).2 p hp d)
  | some d₁ =>
    exact ⟨(hinv.2.1 d₁ hcache).2, hinv.2.2⟩

/-- Witness for C2: the warm two-server group serves the cached entry
unchanged, and the trivial (empty) interleaving from a cold start has at
most one fetch. -/
theorem c2_warm_hit_single_fetch_witness :
    alGet twoGroup.clients "a" = Option.some (cxClient "ea") ∧
    alGet twoGroup.toolsCache "a" =
      Option.some [("t1", { name := "t1", payload := 1 })] ∧
    (twoGroup._get_tools "a" =
      (Except.ok [("t1", { name := "t1", payload := 1 })], twoGroup) ∧
     (coldStart 1).fetches ≤ 1) :=
  ⟨rfl, rfl, c2_warm_hit_single_fetch twoGroup "a" (cxClient "ea")
    [("t1", { name := "t1", payload := 1 })] rfl rfl [] 1 (coldStart 1)
    (CoReach.refl (coldStart 1))⟩

/-- The final state of a one-caller run from a cold start: the caller
missed, took the writer lock, fetched and finished. -/
def c3FinalState : CoState :=
  { cache := Option.some [], fetches := 1, coros := [CoPhase.done []] }

/-- Witness for C3: one caller from a cold start, driven through its read
miss and its writer-locked fetch, ends all-done with exactly one fetch. -/
theorem c3_concurrent_cold_coalesce_witness :
    0 < 1 ∧
    CoReach [] (coldStart 1) c3FinalState ∧
    (∀ p ∈ c3FinalState.coros, ∃ d, p = CoPhase.done d) ∧
    (c3FinalState.fetches = 1 ∧
      ∀ p ∈ c3FinalState.coros, ∀ d, p = CoPhase.done d → d = buildToolsDict []) := by
  have hstep1 : CoStep [] (coldStart 1)
      { cache := Option.none, fetches := 0, coros := [CoPhase.missed] } :=
    CoStep.readMiss 0 [CoPhase.start] 0 rfl
  have hstep2 : CoStep []
      { cache := Option.none, fetches := 0, coros := [CoPhase.missed] }
      c3FinalState :=
    CoStep.writeFetch 0 [CoPhase.missed] 0 rfl
  have hr : CoReach [] (coldStart 1) c3FinalState :=
    CoReach.tail (CoReach.tail (CoReach.refl (coldStart 1)) hstep1) hstep2
  have hall : ∀ p ∈ c3FinalState.coros, ∃ d, p = CoPhase.done d := by
    intro p hp
    simp only [c3FinalState, List.mem_singleton] at hp
    exact ⟨[], hp⟩
  exact ⟨Nat.one_pos, hr, hall,
    c3_concurrent_cold_coalesce [] 1 c3FinalState Nat.one_pos hr hall⟩

/-! ## Reachable-state invariant: cache entries are complete catalogs -/

theorem mem_alKeys_alSet {α : Type} (m : List (String × α)) (k : String) (v : α)
    (x : String) (h : x ∈ alKeys (alSet m k v)) : x ∈ alKeys m ∨ x = k := by
  induction m with
  | nil =>
    simp only [alSet, alKeys, List.map_cons, List.map_nil, List.mem_singleton] at h
    exact Or.inr h
  | cons p rest ih =>
    by_cases hp : p.1 = k
    · simp only [alSet, if_pos hp, alKeys, List.map_cons, List.mem_cons] at h
      rcases h with h | h
      · exact Or.inr h
      · exact Or.inl (by simp [alKeys, List.mem_cons]; exact Or.inr (by simpa [alKeys] using h))
    · simp only [alSet, if_neg hp, alKeys, List.map_cons, List.mem_cons] at h
      rcases h with h | h
      · exact Or.inl (by simp [alKeys, h])
      · rcases ih (by simpa [alKeys] using h) with h₁ | h₁
        · exact Or.inl (by simp [alKeys, List.mem_cons]; right; simpa [alKeys] using h₁)
        · exact Or.inr h₁

theorem mem_alKeys_alPop {α : Type} (m : List (String × α)) (k : String)
    (x : String) (h : x ∈ alKeys (alPop m k)) : x ∈ alKeys m := by
  induction m with
  | nil => simpa [alPop] using h
  | cons p rest ih =>
    by_cases hp : p.1 = k
    · simp only [alPop, if_pos hp] at h
      simp [alKeys, List.mem_cons]
      right
      simpa [alKeys] using h
    · simp only [alPop, if_neg hp, alKeys, List.map_cons, List.mem_cons] at h
      rcases h with h | h
      · simp [alKeys, h]
      · simp only [alKeys, List.map_cons, List.mem_cons]
        right
        simpa [alKeys] using ih (by simpa [alKeys] using h)

theorem nodup_alKeys_alSet {α : Type} (m : List (String × α)) (k : String) (v : α)
    (h : (alKeys m).Nodup) : (alKeys (alSet m k v)).Nodup := by
  induction m with
  | nil => simp [alSet, alKeys]
  | cons p rest ih =>
    simp only [alKeys, List.map_cons, List.nodup_cons] at h
    by_cases hp : p.1 = k
    · simp only [alSet, if_pos hp, alKeys, List.map_cons, List.nodup_cons]
      subst hp
      exact ⟨by simpa [alKeys] using h.1, by simpa [alKeys] using h.2⟩
    · simp only [alSet, if_neg hp, alKeys, List.map_cons, List.nodup_cons]
      constructor
      · intro hc
        rcases mem_alKeys_alSet rest k v p.1 (by simpa [alKeys] using hc) with h₁ | h₁
        · exact h.1 (by simpa [alKeys] using h₁)
        · exact hp h₁
      · exact by simpa [alKeys] using ih (by simpa [alKeys] using h.2)

theorem nodup_alKeys_alPop {α : Type} (m : List (String × α)) (k : String)
    (h : (alKeys m).Nodup) : (alKeys (alPop m k)).Nodup := by
  induction m with
  | nil => simp [alPop, alKeys]
  | cons p rest ih =>
    simp only [alKeys, List.map_cons, List.nodup_cons] at h
    by_cases hp : p.1 = k
    · simp only [alPop, if_pos hp]
      exact by simpa [alKeys] using h.2
    · simp only [alPop, if_neg hp, alKeys, List.map_cons, List.nodup_cons]
      constructor
      · intro hc
        exact h.1 (by simpa [alKeys] using mem_alKeys_alPop rest k p.1 (by simpa [alKeys] using hc))
      · exact by simpa [alKeys] using ih (by simpa [alKeys] using h.2)

/-- The invariant C6 claims of every reachable group state: a cache entry,
when present, is exactly the tool-name-to-tool mapping built from one
completed (successful) discovery round-trip of that server's client. The
key list of the cache is also duplicate-free (as a Python dict is). -/
def cacheConsistent (g : Group) : Prop :=
  (alKeys g.toolsCache).Nodup ∧
  ∀ s d, alGet g.toolsCache s = Option.some d →
    ∃ c, alGet g.clients s = Option.some c ∧ c.getToolsFails = Option.none ∧
      d = buildToolsDict c.catalog

theorem cacheConsistent_emptyCache (clients : List (String × Client)) :
    cacheConsistent { clients := clients, toolsCache := [] } := by
  constructor
  · simp [alKeys]
  · intro s d hd
    simp [alGet] at hd

theorem cacheConsistent_mapVals (g : Group) (f : String → Client → Client)
    (hf : ∀ n c, (f n c).getToolsFails = c.getToolsFails ∧ (f n c).catalog = c.catalog)
    (h : cacheConsistent g) :
    cacheConsistent { g with clients := mapVals f g.clients } := by
  refine ⟨h.1, ?_⟩
  intro s d hd
  obtain ⟨c, hc, hfail, hdd⟩ := h.2 s d hd
  refine ⟨f s c, ?_, ?_, ?_⟩
  · show alGet (mapVals f g.clients) s = Option.some (f s c)
    rw [alGet_mapVals, hc]
    rfl
  · rw [(hf s c).1, hfail]
  · rw [hdd, (hf s c).2]

theorem cacheConsistent_connect (g : Group) (h : cacheConsistent g) :
    cacheConsistent (g.connect).2 := by
  unfold Group.connect
  cases hh : (g.clients.filterMap (fun nc => nc.2.connectResult)).head? with
  | some e =>
    simp only
    exact cacheConsistent_mapVals g _ (fun n c => by
      unfold Client.connectOp
      cases hc : c.connectResult <;> exact ⟨rfl, rfl⟩) h
  | none =>
    simp only
    exact cacheConsistent_emptyCache _

theorem cacheConsistent_close (g : Group) :
    cacheConsistent (g.close).2 :=
  cacheConsistent_emptyCache _

theorem cacheConsistent_getToolsI (g : Group) (s : String)
    (h : cacheConsistent g) : cacheConsistent (g._get_tools s).2 := by
  cases hc : alGet g.clients s with
  | none =>
    simp only [Group._get_tools, hc]
    exact h
  | some client =>
    cases hd : alGet g.toolsCache s with
    | some d =>
      simp only [Group._get_tools, hc, hd]
      exact h
    | none =>
      cases hg : client.getToolsOp with
      | mk r client₁ =>
        have hcfg : client₁.getToolsFails = client.getToolsFails ∧
            client₁.catalog = client.catalog := by
          unfold Client.getToolsOp at hg
          cases hf : client.getToolsFails <;> rw [hf] at hg <;>
            · cases hg
              exact ⟨rfl, rfl⟩
        cases r with
        | error e =>
          simp only [Group._get_tools, hc, hd, hg]
          refine ⟨h.1, ?_⟩
          intro s₁ d₁ hd₁
          obtain ⟨c, hcc, hfail, hdd⟩ := h.2 s₁ d₁ hd₁
          have hne : s₁ ≠ s := by
            intro hcon
            rw [hcon, hd] at hd₁
            cases hd₁
          refine ⟨c, ?_, hfail, hdd⟩
          show alGet (alSet g.clients s client₁) s₁ = Option.some c
          rw [alGet_alSet_ne _ _ _ _ hne, hcc]
        | ok tools =>
          have htools : tools = client.catalog ∧ client.getToolsFails = Option.none := by
            unfold Client.getToolsOp at hg
            cases hf : client.getToolsFails <;> rw [hf] at hg
            · cases hg
              exact ⟨rfl, rfl⟩
            · cases hg
          simp only [Group._get_tools, hc, hd, hg]
          refine ⟨nodup_alKeys_alSet _ _ _ h.1, ?_⟩
          intro s₁ d₁ hd₁
          by_cases hne : s₁ = s
          · subst hne
            rw [show alGet (alSet g.toolsCache s₁ (buildToolsDict tools)) s₁ =
                Option.some (buildToolsDict tools) from alGet_alSet_self _ _ _] at hd₁
            cases hd₁
            refine ⟨client₁, alGet_alSet_self _ _ _, ?_, ?_⟩
            · rw [hcfg.1, htools.2]
            · rw [hcfg.2, ← htools.1]
          · rw [show alGet (alSet g.toolsCache s (buildToolsDict tools)) s₁ =
                alGet g.toolsCache s₁ from alGet_alSet_ne _ _ _ _ hne] at hd₁
            obtain ⟨c, hcc, hfail, hdd⟩ := h.2 s₁ d₁ hd₁
            refine ⟨c, ?_, hfail, hdd⟩
            rw [show alGet (alSet g.clients s client₁) s₁ =
                alGet g.clients s₁ from alGet_alSet_ne _ _ _ _ hne, hcc]

theorem cacheConsistent_groupedAux (l : List String) :
    ∀ g : Group, cacheConsistent g →
      cacheConsistent (Group.getToolsGroupedAux g l).2 := by
  induction l with
  | nil =>
    intro g h
    exact h
  | cons s rest ih =>
    intro g h
    have h₁ := cacheConsistent_getToolsI g s h
    unfold Group.getToolsGroupedAux
    cases hg : g._get_tools s with
    | mk r g₁ =>
      rw [hg] at h₁
      cases r with
      | error e =>
        dsimp only
        exact h₁
      | ok d =>
        have h₂ := ih g₁ h₁
        dsimp only
        cases hg₂ : Group.getToolsGroupedAux g₁ rest with
        | mk r₂ g₂ =>
          rw [hg₂] at h₂
          cases r₂ with
          | error e =>
            dsimp only
            exact h₂
          | ok tail =>
            dsimp only
            exact h₂

theorem cacheConsistent_get_tools (g : Group) (so : Option String)
    (h : cacheConsistent g) : cacheConsistent (g.get_tools so).2 := by
  cases so with
  | some s =>
    have h₁ := cacheConsistent_getToolsI g s h
    unfold Group.get_tools
    dsimp only
    cases hg : g._get_tools s with
    | mk r g₁ =>
      rw [hg] at h₁
      cases r with
      | error e =>
        dsimp only
        exact h₁
      | ok d =>
        dsimp only
        exact h₁
  | none =>
    have h₁ := cacheConsistent_groupedAux (alKeys g.clients) g h
    unfold Group.get_tools Group.get_tools_grouped_by_server
    dsimp only
    cases hg : Group.getToolsGroupedAux g (alKeys g.clients) with
    | mk r g₁ =>
      rw [hg] at h₁
      cases r with
      | error e =>
        dsimp only
        exact h₁
      | ok grouped =>
        dsimp only
        exact h₁

theorem cacheConsistent_call_tool (g : Group) (s t : String) (cid : Option String)
    (h : cacheConsistent g) : cacheConsistent (g.call_tool s t cid).2 := by
  have h₁ := cacheConsistent_getToolsI g s h
  unfold Group.call_tool
  cases hg : g._get_tools s with
  | mk r g₁ =>
    rw [hg] at h₁
    cases r with
    | error e =>
      dsimp only
      exact h₁
    | ok d =>
      dsimp only
      cases ht : alGet d t with
      | none =>
        dsimp only
        exact h₁
      | some tool =>
        dsimp only
        exact cacheConsistent_mapVals g₁ _ (fun n c => by
          by_cases hn : n = s
          · rw [if_pos hn]
            exact ⟨rfl, rfl⟩
          · rw [if_neg hn]
            exact ⟨rfl, rfl⟩) h₁

theorem cacheConsistent_invalidate (g : Group) (so : Option String)
    (h : cacheConsistent g) : cacheConsistent (g.invalidate_cache so).2 := by
  cases so with
  | none => exact cacheConsistent_emptyCache _
  | some s =>
    unfold Group.invalidate_cache
    dsimp only
    cases hc : alGet g.clients s with
    | none =>
      dsimp only
      exact h
    | some c =>
      dsimp only
      refine ⟨nodup_alKeys_alPop _ _ h.1, ?_⟩
      intro s₁ d₁ hd₁
      by_cases hne : s₁ = s
      · subst hne
        rw [alGet_alPop_self _ _ h.1] at hd₁
        cases hd₁
      · rw [alGet_alPop_ne _ _ _ hne] at hd₁
        obtain ⟨c₁, hcc, hfail, hdd⟩ := h.2 s₁ d₁ hd₁
        refine ⟨if s₁ = s then c₁.invalidateOp else c₁, ?_, ?_, ?_⟩
        · show alGet (mapVals (fun n c => if n = s then c.invalidateOp else c) g.clients) s₁ =
            Option.some (if s₁ = s then c₁.invalidateOp else c₁)
          rw [alGet_mapVals, hcc]
          rfl
        · simp [hne, hfail]
        · simp [hne, hdd]

/-- Reachability of group states from a starting state under the public
operations of `Group` (connect, close, get_tools in both forms, call_tool,
invalidate_cache), whether they succeed or raise. -/
inductive GReach : Group → Group → Prop where
  | refl (g : Group) : GReach g g
  | connectStep {a b : Group} : GReach a b → GReach a (b.connect).2
  | closeStep {a b : Group} : GReach a b → GReach a (b.close).2
  | getToolsStep {a b : Group} (s : Option String) :
      GReach a b → GReach a (b.get_tools s).2
  | callToolStep {a b : Group} (s t : String) (cid : Option String) :
      GReach a b → GReach a (b.call_tool s t cid).2
  | invalidateStep {a b : Group} (s : Option String) :
      GReach a b → GReach a (b.invalidate_cache s).2

/-- C6: in every group state reachable from a state with an empty cache
(as built by the constructor), a tools-cache entry for a server is either
absent or is exactly the mapping built from one completed discovery
round-trip to that server's client; no partial catalog is ever stored. -/
theorem c6_cache_entry_complete (g₀ g : Group) (h0 : g₀.toolsCache = [])
    (hr : GReach g₀ g) (s : String) (d : List (String × Tool))
    (hd : alGet g.toolsCache s = Option.some d) :
    ∃ c, alGet g.clients s = Option.some c ∧ c.getToolsFails = Option.none ∧
      d = buildToolsDict c.catalog := by
  have hinv : cacheConsistent g := by
    have h₀ : cacheConsistent g₀ := by
      have : g₀ = { clients := g₀.clients, toolsCache := [] } := by
        cases g₀
        simp_all
      rw [this]
      exact cacheConsistent_emptyCache _
    clear h0 hd
    induction hr with
    | refl => exact h₀
    | connectStep hr ih => exact cacheConsistent_connect _ ih
    | closeStep hr ih => exact cacheConsistent_close _
    | getToolsStep so hr ih => exact cacheConsistent_get_tools _ so ih
    | callToolStep st tt cid hr ih => exact cacheConsistent_call_tool _ st tt cid ih
    | invalidateStep so hr ih => exact cacheConsistent_invalidate _ so ih
  exact hinv.2 s d hd

/-- Witness for C6: from the one-server group, one `get_tools` call
populates the cache entry for `a`, and the theorem yields the client whose
catalog built it. -/
theorem c6_cache_entry_complete_witness :
    okGroup.toolsCache = [] ∧
    GReach okGroup (okGroup.get_tools (Option.some "a")).2 ∧
    alGet (okGroup.get_tools (Option.some "a")).2.toolsCache "a" =
      Option.some [("add", { name := "add", payload := 0 })] ∧
    (∃ c, alGet (okGroup.get_tools (Option.some "a")).2.clients "a" = Option.some c ∧
      c.getToolsFails = Option.none ∧
      [("add", { name := "add", payload := 0 })] = buildToolsDict c.catalog) :=
  ⟨rfl, GReach.getToolsStep (Option.some "a") (GReach.refl okGroup), rfl,
    c6_cache_entry_complete okGroup (okGroup.get_tools (Option.some "a")).2 rfl
      (GReach.getToolsStep (Option.some "a") (GReach.refl okGroup)) "a"
      [("add", { name := "add", payload := 0 })] rfl⟩

end Mcputil
